import Mathlib

/-!
Verification of the tic-tac-toe implementation.

Shallow embedding of `src/tictactoe/tictactoe.c` (the current version of the
game; `src/tictactoe.c` is the earlier historical version, embedded only where
a claim refers to it).

Modelling conventions:
* A board cell is a `Nat` holding the C `char` value (`0` = empty, `88` = 'X',
  `79` = 'O').  The board `m_Board` is a `List (List Nat)`; reads use `getD`
  with the C out-of-bounds accesses made total (an out-of-range read yields
  `0`, an out-of-range write is dropped — the out-of-range accesses themselves
  are what the relevant theorems exhibit).
* Standard input is a `List Nat` of byte values; the end of the list is
  end-of-stream (`EOF`).  `10` is the newline character.
* The `rand()` source is an infinite stream `Nat → Nat` together with a
  cursor that advances on every draw.
* Loops that the C program runs unboundedly take a `fuel : Nat` argument and
  answer `.out` when it runs out; `fuel = stdin.length + 1` is provably enough
  for every input-reading loop, and the driver passes exactly that.
* Process exits (`exit(...)`) are the `.exited code` result.
-/

/-- Game states, from `gamestate.h`. -/
inductive GState where
  | MENU | SETTINGS | PLAY | PAUSE | RESTART | PLAYER_WIN | AI_WIN | STALEMATE | EXIT
deriving DecidableEq, Repr

/-- Whose turn is next, from `nextmove.h` (header not in the repository; the
two enumerators are exactly the ones the source uses). -/
inductive NextMove where
  | PLAYER_MOVE | AI_MOVE
deriving DecidableEq, Repr

/-- The board `m_Board`: rows of cell characters. -/
abbrev Board := List (List Nat)

/-- `GameSession` from `tictactoe.c`. -/
structure GameSession where
  state : GState
  nextMove : NextMove
  dim : Nat
  board : Board
  movesLeft : Int
deriving DecidableEq, Repr

/-- Result of running a piece of the program: a value, a process exit with the
given exit code, or fuel exhaustion (the C loop would still be running). -/
inductive Res (α : Type) where
  | exited : Nat → Res α
  | ok : α → Res α
  | out : Res α
deriving DecidableEq, Repr

/-- Row `i` of the board (C `m_Board[i]`). -/
def rowAt (b : Board) (i : Nat) : List Nat := b.getD i []

/-- Cell read `m_Board[i][j]`; out-of-range reads give `0`. -/
def cellAt (b : Board) (i j : Nat) : Nat := (rowAt b i).getD j 0

/-- Cell write `m_Board[i][j] = s`; out-of-range writes are dropped. -/
def setCell (b : Board) (i j s : Nat) : Board := b.set i ((rowAt b i).set j s)

/-- `isInRange` from tictactoe.c: `number >= begin + 48 && number <= end + 48`. -/
def isInRange (number begin_ end_ : Nat) : Bool :=
  decide (begin_ + 48 ≤ number ∧ number ≤ end_ + 48)

/-- ctype `isdigit` on a byte value. -/
def isdigit (c : Nat) : Bool := decide (48 ≤ c ∧ c ≤ 57)

/-- The exit code produced by `exitGame(TheGame, status)`:
`if (status) exit(EXIT_SUCCESS); else exit(EXIT_FAILURE);`. -/
def exitGameCode (status : Nat) : Nat := if status ≠ 0 then 0 else 1

/-- The stdin-skipping loop
`while ((lineEnd = getchar()) != '\n' && lineEnd != EOF);`:
drops characters up to and including the next newline (or to end-of-stream). -/
def skipLine : List Nat → List Nat
  | [] => []
  | c :: cs => if c = 10 then cs else skipLine cs

/-- `getPlayerInput(rangeBegin, rangeEnd, TheGame)`: reads one character; on
EOF calls `exitGame(TheGame, 0)`; accepts a digit in range followed by a
newline; otherwise prints `"Please, enter a valid option [lo-hi]"` (recorded
as the pair `(lo, hi)` in the first component), skips the rest of the line and
retries.  Returns the accepted value and the unconsumed input. -/
def getPlayerInput : Nat → Nat → Nat → List Nat → List (Nat × Nat) × Res (Nat × List Nat)
  | 0, _, _, _ => ([], .out)
  | fuel + 1, lo, hi, stdin =>
    match stdin with
    | [] => ([], .exited (exitGameCode 0))
    | c :: rest =>
      if isdigit c && isInRange c lo hi then
        match rest with
        | d :: rest2 =>
          if d = 10 then ([], .ok (c - 48, rest2))
          else
            let r := getPlayerInput fuel lo hi (skipLine rest2)
            ((lo, hi) :: r.1, r.2)
        | [] =>
          let r := getPlayerInput fuel lo hi []
          ((lo, hi) :: r.1, r.2)
      else
        let r := getPlayerInput fuel lo hi (skipLine rest)
        ((lo, hi) :: r.1, r.2)

/-- The (row, col) pair computed inside `checkCell`:
`pos--; x = pos / m_Dim; y = pos % m_Dim;` where `pos` is an `int` and
`m_Dim` a `size_t`, so `pos - 1` is converted to a 64-bit unsigned value
before the division (for `pos = 0` this wraps to `2^64 - 1`). -/
def cellIndex (pos dim : Nat) : Nat × Nat :=
  let p := (pos + (2 ^ 64 - 1)) % 2 ^ 64
  (p / dim, p % dim)

/-- `checkCell(TheGame, pos, playerSymbol)`: if the addressed cell is empty,
mark it and report `1`; otherwise report `0` with the board unchanged. -/
def checkCell (b : Board) (dim pos sym : Nat) : Board × Bool :=
  let xy := cellIndex pos dim
  if cellAt b xy.1 xy.2 ≠ 0 then (b, false)
  else (setCell b xy.1 xy.2 sym, true)

/-- `detectedLine(board, dim)`: scans rows, columns, the main diagonal and the
anti-diagonal for a chain of equal, non-empty adjacent cells. -/
def detectedLine (b : Board) (dim : Nat) : Bool :=
  ((List.range dim).any fun i =>
    (List.range (dim - 1)).all fun j =>
      (cellAt b i j == cellAt b i (j + 1)) && (cellAt b i j != 0)) ||
  ((List.range dim).any fun i =>
    (List.range (dim - 1)).all fun j =>
      (cellAt b j i == cellAt b (j + 1) i) && (cellAt b j i != 0)) ||
  ((List.range (dim - 1)).all fun i =>
    (cellAt b i i == cellAt b (i + 1) (i + 1)) && (cellAt b i i != 0)) ||
  ((List.range (dim - 1)).all fun i =>
    (cellAt b i (dim - 1 - i) == cellAt b (i + 1) (dim - 2 - i)) && (cellAt b i (dim - 1 - i) != 0))

/-- `processPauseState(TheGame)`: prompt `[1,3]`; `1` resumes (redraws the
board, no session change), `2` sets `RESTART`, `3` sets `MENU`. -/
def processPauseState (g : GameSession) (stdin : List Nat) : Res (GameSession × List Nat) :=
  match (getPlayerInput (stdin.length + 1) 1 3 stdin).2 with
  | .exited c => .exited c
  | .out => .out
  | .ok (sel, rest) =>
    if sel = 1 then .ok (g, rest)
    else if sel = 2 then .ok ({ g with state := .RESTART }, rest)
    else if sel = 3 then .ok ({ g with state := .MENU }, rest)
    else .ok (g, rest)

/-- `getPlayerMove(TheGame)`: while the state is `PLAY`, prompt `[0,9]`;
`0` runs the pause sub-flow and loops; otherwise try `checkCell` with `'X'`
(`88`), breaking on success and re-prompting on an occupied cell. -/
def getPlayerMove : Nat → GameSession → List Nat → Res (GameSession × List Nat)
  | 0, _, _ => .out
  | fuel + 1, g, stdin =>
    if g.state = GState.PLAY then
      match (getPlayerInput (stdin.length + 1) 0 9 stdin).2 with
      | .exited c => .exited c
      | .out => .out
      | .ok (sel, rest) =>
        if sel = 0 then
          match processPauseState g rest with
          | .exited c => .exited c
          | .out => .out
          | .ok (g', rest') => getPlayerMove fuel g' rest'
        else
          if (checkCell g.board g.dim sel 88).2 then
            .ok ({ g with board := (checkCell g.board g.dim sel 88).1 }, rest)
          else getPlayerMove fuel g rest
    else .ok (g, stdin)

/-- `getAImove(TheGame)`: repeatedly draw `rand() % (m_Dim * m_Dim)` and try
`checkCell` with `'O'` (`79`) until one succeeds.  `r` is the random stream
and `k` the cursor into it; the cursor of the next unread value is returned. -/
def getAImove : Nat → GameSession → (Nat → Nat) → Nat → Res (GameSession × Nat)
  | 0, _, _, _ => .out
  | fuel + 1, g, r, k =>
    if (checkCell g.board g.dim (r k % (g.dim * g.dim)) 79).2 then
      .ok ({ g with board := (checkCell g.board g.dim (r k % (g.dim * g.dim)) 79).1 }, k + 1)
    else getAImove fuel g r (k + 1)

/-- The tail of `processTurn` after the move was made (lines 369-385): return
if the state left `PLAY`; on a detected line attribute the win through the
already-flipped `m_NextMove`; otherwise decrement `m_MovesLeft` and declare
`STALEMATE` when it reaches zero. -/
def afterMove (g : GameSession) : GameSession :=
  if g.state ≠ GState.PLAY then g
  else if detectedLine g.board g.dim then
    if g.nextMove = NextMove.AI_MOVE then { g with state := .PLAYER_WIN }
    else { g with state := .AI_WIN }
  else
    let g' := { g with movesLeft := g.movesLeft - 1 }
    if g'.movesLeft = 0 then { g' with state := .STALEMATE } else g'

/-- `processTurn(TheGame)`: flip `m_NextMove`, run the mover, then the
post-move section `afterMove`. -/
def processTurn (g : GameSession) (stdin : List Nat) (r : Nat → Nat) (k aiFuel : Nat) :
    Res (GameSession × List Nat × Nat) :=
  match g.nextMove with
  | .PLAYER_MOVE =>
    match getPlayerMove (stdin.length + 1) { g with nextMove := .AI_MOVE } stdin with
    | .exited c => .exited c
    | .out => .out
    | .ok (g2, stdin2) => .ok (afterMove g2, stdin2, k)
  | .AI_MOVE =>
    match getAImove aiFuel { g with nextMove := .PLAYER_MOVE } r k with
    | .exited c => .exited c
    | .out => .out
    | .ok (g2, k2) => .ok (afterMove g2, stdin, k2)

/-- The all-empty `dim × dim` grid left by `resetGame`'s clearing loops. -/
def emptyBoard (dim : Nat) : Board := List.replicate dim (List.replicate dim 0)

/-- `resetGame(TheGame)`: clear the board, state `PLAY`,
`m_MovesLeft = m_Dim * m_Dim`, player moves first. -/
def resetGame (g : GameSession) : GameSession :=
  { g with
    board := emptyBoard g.dim
    state := .PLAY
    movesLeft := (g.dim * g.dim : Nat)
    nextMove := .PLAYER_MOVE }

/-- `n` consecutive `processTurn` invocations, threading session, stdin and
random cursor — the body of `playGame`'s loop along any run in which the
state stays `PLAY` (the loop condition is captured by the hypotheses of the
theorems using it). -/
def runTurns : Nat → GameSession → List Nat → (Nat → Nat) → Nat → Nat →
    Res (GameSession × List Nat × Nat)
  | 0, g, stdin, _, k, _ => .ok (g, stdin, k)
  | n + 1, g, stdin, r, k, aiFuel =>
    match processTurn g stdin r k aiFuel with
    | .exited c => .exited c
    | .out => .out
    | .ok (g', stdin', k') => runTurns n g' stdin' r k' aiFuel

/-- State of a turn result, if it is a value. -/
def turnState (res : Res (GameSession × List Nat × Nat)) : Option GState :=
  match res with
  | .ok (g, _, _) => some g.state
  | _ => none

/-- Whether the win detector fires on the board of a turn result. -/
def turnLine (res : Res (GameSession × List Nat × Nat)) : Bool :=
  match res with
  | .ok (g, _, _) => detectedLine g.board g.dim
  | _ => false

/-- The candidate cell index drawn by `getAImove` of the historical version
`src/tictactoe.c`: `AIchoice = rand() % 8 + 1`. -/
def getAImoveChoiceOld (r : Nat → Nat) (k : Nat) : Nat := r k % 8 + 1

/-- A board is a well-formed `dim × dim` grid. -/
def isBoardOf (b : Board) (dim : Nat) : Prop :=
  b.length = dim ∧ ∀ row ∈ b, row.length = dim

/-- One complete line of cells holding one and the same non-empty symbol
(the spec's wording, for the refinement statement of the win detector). -/
def lineSpec (f : Nat → Nat) (n : Nat) : Prop :=
  ∃ s, s ≠ 0 ∧ ∀ j, j < n → f j = s

/-- The spec's wording of `hasCompletedLine`: some row, some column, the main
diagonal or the anti-diagonal consists entirely of one non-empty symbol. -/
def hasCompletedLineSpec (b : Board) (dim : Nat) : Prop :=
  (∃ i, i < dim ∧ lineSpec (fun j => cellAt b i j) dim) ∨
  (∃ i, i < dim ∧ lineSpec (fun j => cellAt b j i) dim) ∨
  lineSpec (fun j => cellAt b j j) dim ∨
  lineSpec (fun j => cellAt b j (dim - 1 - j)) dim

instance (b : Board) (dim : Nat) : Decidable (isBoardOf b dim) := by
  unfold isBoardOf
  infer_instance

/-- A fresh 3×3 session as `resetGame` leaves it at the start of a game. -/
def gEmpty3 : GameSession :=
  { state := .PLAY, nextMove := .PLAYER_MOVE, dim := 3, board := emptyBoard 3, movesLeft := 9 }

/-- A session one player move away from a player win (top row `X X _`). -/
def gA : GameSession :=
  { state := .PLAY, nextMove := .PLAYER_MOVE, dim := 3,
    board := [[88, 88, 0], [79, 79, 0], [0, 0, 0]], movesLeft := 5 }

/-- `gA` after the player marked cell 3: top row completed. -/
def gA2 : GameSession :=
  { state := .PLAY, nextMove := .AI_MOVE, dim := 3,
    board := [[88, 88, 88], [79, 79, 0], [0, 0, 0]], movesLeft := 5 }

/-- A random stream that always answers `5`. -/
def rand5 : Nat → Nat := fun _ => 5

/-- `gEmpty3` after the AI marked cell 5 (centre). -/
def gO5 : GameSession :=
  { state := .PLAY, nextMove := .PLAYER_MOVE, dim := 3,
    board := [[0, 0, 0], [0, 79, 0], [0, 0, 0]], movesLeft := 9 }

/-- An arbitrary pre-`resetGame` session used to start a full stalemate game. -/
def gW0 : GameSession :=
  { state := .MENU, nextMove := .AI_MOVE, dim := 3, board := [], movesLeft := 0 }

/-- Player inputs `"1\n3\n4\n8\n9\n"` for the stalemate game. -/
def stdinW : List Nat := [49, 10, 51, 10, 52, 10, 56, 10, 57, 10]

/-- AI draws `2, 5, 6, 7` for the stalemate game. -/
def randW : Nat → Nat := fun k => [2, 5, 6, 7].getD k 0

/-- The drawn final position `X O X / X O O / O X X` of the stalemate game. -/
def gfW : GameSession :=
  { state := .STALEMATE, nextMove := .AI_MOVE, dim := 3,
    board := [[88, 79, 88], [88, 79, 79], [79, 88, 88]], movesLeft := 0 }

/-! ## Step equations and supporting lemmas -/

theorem getPlayerInput_zero (lo hi : Nat) (stdin : List Nat) :
    getPlayerInput 0 lo hi stdin = ([], .out) := rfl

theorem getPlayerInput_nil (fuel lo hi : Nat) :
    getPlayerInput (fuel + 1) lo hi [] = ([], .exited (exitGameCode 0)) := rfl

theorem getPlayerInput_accept (fuel lo hi c : Nat) (rest2 : List Nat)
    (hc : (isdigit c && isInRange c lo hi) = true) :
    getPlayerInput (fuel + 1) lo hi (c :: 10 :: rest2) = ([], .ok (c - 48, rest2)) := by
  simp [getPlayerInput, hc]

theorem getPlayerInput_badline (fuel lo hi c d : Nat) (rest2 : List Nat)
    (hc : (isdigit c && isInRange c lo hi) = true) (hd : d ≠ 10) :
    getPlayerInput (fuel + 1) lo hi (c :: d :: rest2) =
      ((lo, hi) :: (getPlayerInput fuel lo hi (skipLine rest2)).1,
        (getPlayerInput fuel lo hi (skipLine rest2)).2) := by
  simp [getPlayerInput, hc, hd]

theorem getPlayerInput_one (fuel lo hi c : Nat)
    (hc : (isdigit c && isInRange c lo hi) = true) :
    getPlayerInput (fuel + 1) lo hi [c] =
      ((lo, hi) :: (getPlayerInput fuel lo hi []).1, (getPlayerInput fuel lo hi []).2) := by
  simp [getPlayerInput, hc]

theorem getPlayerInput_reject (fuel lo hi c : Nat) (rest : List Nat)
    (hc : (isdigit c && isInRange c lo hi) = false) :
    getPlayerInput (fuel + 1) lo hi (c :: rest) =
      ((lo, hi) :: (getPlayerInput fuel lo hi (skipLine rest)).1,
        (getPlayerInput fuel lo hi (skipLine rest)).2) := by
  simp [getPlayerInput, hc]

theorem skipLine_length_le (l : List Nat) : (skipLine l).length ≤ l.length := by
  induction l with
  | nil => simp [skipLine]
  | cons c cs ih =>
    simp only [skipLine]
    split
    · simp
    · exact Nat.le_succ_of_le ih

/-- An accepted read consumes at least the digit and its newline. -/
theorem getPlayerInput_consumes :
    ∀ fuel lo hi stdin v rest, (getPlayerInput fuel lo hi stdin).2 = Res.ok (v, rest) →
      rest.length + 2 ≤ stdin.length := by
  intro fuel
  induction fuel with
  | zero =>
    intro lo hi stdin v rest h
    rw [getPlayerInput_zero] at h
    exact absurd h (by simp)
  | succ fuel ih =>
    intro lo hi stdin v rest h
    match stdin with
    | [] =>
      rw [getPlayerInput_nil] at h
      exact absurd h (by simp)
    | [c] =>
      by_cases hc : (isdigit c && isInRange c lo hi) = true
      · rw [getPlayerInput_one fuel lo hi c hc] at h
        simp only at h
        have := ih lo hi [] v rest h
        simp at this
      · rw [getPlayerInput_reject fuel lo hi c []
          (by simpa using hc)] at h
        simp only at h
        have := ih lo hi (skipLine []) v rest h
        simp [skipLine] at this
    | c :: d :: rest2 =>
      by_cases hc : (isdigit c && isInRange c lo hi) = true
      · by_cases hd : d = 10
        · subst hd
          rw [getPlayerInput_accept fuel lo hi c rest2 hc] at h
          simp only [Res.ok.injEq, Prod.mk.injEq] at h
          obtain ⟨-, hr⟩ := h
          subst hr
          simp
        · rw [getPlayerInput_badline fuel lo hi c d rest2 hc hd] at h
          simp only at h
          have h1 := ih lo hi (skipLine rest2) v rest h
          have h2 := skipLine_length_le rest2
          simp only [List.length_cons]
          omega
      · rw [getPlayerInput_reject fuel lo hi c (d :: rest2)
          (by simpa using hc)] at h
        simp only at h
        have h1 := ih lo hi (skipLine (d :: rest2)) v rest h
        have h2 := skipLine_length_le (d :: rest2)
        simp only [List.length_cons] at h2 ⊢
        omega

/-- A value returned by the input reader lies in the requested range. -/
theorem getPlayerInput_inRange :
    ∀ fuel lo hi stdin v rest, (getPlayerInput fuel lo hi stdin).2 = Res.ok (v, rest) →
      lo ≤ v ∧ v ≤ hi := by
  intro fuel
  induction fuel with
  | zero =>
    intro lo hi stdin v rest h
    rw [getPlayerInput_zero] at h
    exact absurd h (by simp)
  | succ fuel ih =>
    intro lo hi stdin v rest h
    match stdin with
    | [] =>
      rw [getPlayerInput_nil] at h
      exact absurd h (by simp)
    | [c] =>
      by_cases hc : (isdigit c && isInRange c lo hi) = true
      · rw [getPlayerInput_one fuel lo hi c hc] at h
        exact ih lo hi [] v rest h
      · rw [getPlayerInput_reject fuel lo hi c [] (by simpa using hc)] at h
        exact ih lo hi (skipLine []) v rest h
    | c :: d :: rest2 =>
      by_cases hc : (isdigit c && isInRange c lo hi) = true
      · by_cases hd : d = 10
        · subst hd
          rw [getPlayerInput_accept fuel lo hi c rest2 hc] at h
          simp only [Res.ok.injEq, Prod.mk.injEq] at h
          obtain ⟨hv, -⟩ := h
          subst hv
          simp only [Bool.and_eq_true, isdigit, isInRange, decide_eq_true_eq] at hc
          omega
        · rw [getPlayerInput_badline fuel lo hi c d rest2 hc hd] at h
          exact ih lo hi (skipLine rest2) v rest h
      · rw [getPlayerInput_reject fuel lo hi c (d :: rest2) (by simpa using hc)] at h
        exact ih lo hi (skipLine (d :: rest2)) v rest h

theorem rowAt_set_ne (b : Board) (x i : Nat) (row : List Nat) (h : i ≠ x) :
    rowAt (b.set x row) i = rowAt b i := by
  simp [rowAt, List.getD_eq_getElem?_getD, List.getElem?_set_ne (Ne.symm h)]

theorem rowAt_set_self (b : Board) (i : Nat) (row : List Nat) (h : i < b.length) :
    rowAt (b.set i row) i = row := by
  simp only [rowAt, List.getD_eq_getElem?_getD, List.getElem?_set_self']
  rw [List.getElem?_eq_getElem h]
  rfl

theorem rowAt_length (b : Board) (dim x : Nat) (hB : isBoardOf b dim) (hx : x < dim) :
    (rowAt b x).length = dim := by
  have hx' : x < b.length := by rw [hB.1]; exact hx
  rw [rowAt, List.getD_eq_getElem?_getD, List.getElem?_eq_getElem hx']
  exact hB.2 _ (List.getElem_mem hx')

theorem cellAt_setCell_ne (b : Board) (x y s i j : Nat) (h : i ≠ x ∨ j ≠ y) :
    cellAt (setCell b x y s) i j = cellAt b i j := by
  by_cases hix : i = x
  · subst hix
    replace h : j ≠ y := h.resolve_left (by simp)
    by_cases hlen : i < b.length
    · rw [cellAt, setCell, rowAt_set_self _ _ _ hlen, cellAt]
      simp [List.getD_eq_getElem?_getD, List.getElem?_set_ne (Ne.symm h)]
    · rw [setCell, List.set_eq_of_length_le (Nat.le_of_not_lt hlen)]
  · rw [cellAt, setCell, rowAt_set_ne _ _ _ _ hix, cellAt]

theorem cellAt_setCell_eq (b : Board) (x y s : Nat)
    (hx : x < b.length) (hy : y < (rowAt b x).length) :
    cellAt (setCell b x y s) x y = s := by
  rw [cellAt, setCell, rowAt_set_self _ _ _ hx]
  simp only [List.getD_eq_getElem?_getD, List.getElem?_set_self']
  rw [List.getElem?_eq_getElem hy]
  rfl

theorem cellAt_setCell_cases (b : Board) (x y s i j : Nat) :
    cellAt (setCell b x y s) i j = cellAt b i j ∨ cellAt (setCell b x y s) i j = s := by
  by_cases hix : i = x
  · by_cases hjy : j = y
    · subst hix; subst hjy
      by_cases hx : i < b.length
      · by_cases hy : j < (rowAt b i).length
        · exact Or.inr (cellAt_setCell_eq b i j s hx hy)
        · left
          rw [cellAt, setCell, rowAt_set_self _ _ _ hx,
            List.set_eq_of_length_le (Nat.le_of_not_lt hy), cellAt]
      · left
        rw [setCell, List.set_eq_of_length_le (Nat.le_of_not_lt hx)]
    · exact Or.inl (cellAt_setCell_ne b x y s i j (Or.inr hjy))
  · exact Or.inl (cellAt_setCell_ne b x y s i j (Or.inl hix))

/-- A chain of equal, non-empty adjacent values is the same thing as all `n`
values being one and the same non-zero value (for `n ≥ 2`). -/
theorem chain_prop (f : Nat → Nat) (n : Nat) (hn : 2 ≤ n) :
    (∀ j, j < n - 1 → f j = f (j + 1) ∧ f j ≠ 0) ↔ (∃ s, s ≠ 0 ∧ ∀ j, j < n → f j = s) := by
  constructor
  · intro h
    have key : ∀ j, j < n → f j = f 0 := by
      intro j
      induction j with
      | zero => intro _; rfl
      | succ j ih =>
        intro hj
        have hj' : j < n - 1 := by omega
        have h1 := (h j hj').1
        rw [← h1]
        exact ih (by omega)
    exact ⟨f 0, (h 0 (by omega)).2, key⟩
  · rintro ⟨s, hs, hall⟩ j hj
    have h1 := hall j (by omega)
    have h2 := hall (j + 1) (by omega)
    rw [h1, h2]
    exact ⟨rfl, hs⟩

/-- `detectedLine` in propositional form: some row chain, some column chain,
the main-diagonal chain or the anti-diagonal chain holds. -/
theorem detectedLine_eq_true_iff (b : Board) (dim : Nat) :
    detectedLine b dim = true ↔
      ((∃ i, i < dim ∧ ∀ j, j < dim - 1 →
          cellAt b i j = cellAt b i (j + 1) ∧ cellAt b i j ≠ 0) ∨
       (∃ i, i < dim ∧ ∀ j, j < dim - 1 →
          cellAt b j i = cellAt b (j + 1) i ∧ cellAt b j i ≠ 0) ∨
       (∀ j, j < dim - 1 → cellAt b j j = cellAt b (j + 1) (j + 1) ∧ cellAt b j j ≠ 0) ∨
       (∀ j, j < dim - 1 →
          cellAt b j (dim - 1 - j) = cellAt b (j + 1) (dim - 2 - j) ∧
          cellAt b j (dim - 1 - j) ≠ 0)) := by
  simp only [detectedLine, List.any_eq_true, List.all_eq_true, List.mem_range,
    Bool.and_eq_true, beq_iff_eq, bne_iff_ne, Bool.or_eq_true, ne_eq]
  rw [or_assoc, or_assoc]

/-- Case analysis of `checkCell`. -/
theorem checkCell_result (b : Board) (dim pos sym : Nat) :
    (cellAt b (cellIndex pos dim).1 (cellIndex pos dim).2 ≠ 0 ∧
      checkCell b dim pos sym = (b, false)) ∨
    (cellAt b (cellIndex pos dim).1 (cellIndex pos dim).2 = 0 ∧
      checkCell b dim pos sym =
        (setCell b (cellIndex pos dim).1 (cellIndex pos dim).2 sym, true)) := by
  by_cases h : cellAt b (cellIndex pos dim).1 (cellIndex pos dim).2 = 0
  · exact Or.inr ⟨h, by rw [checkCell, if_neg (by simp [h])]⟩
  · exact Or.inl ⟨h, by rw [checkCell, if_pos h]⟩

/-- `processPauseState` leaves board, dimension, move counter and turn flag
alone, changes the state only to `RESTART` or `MENU`, and consumes input. -/
theorem processPauseState_cases (g : GameSession) (stdin : List Nat) (g' : GameSession)
    (rest' : List Nat) (h : processPauseState g stdin = .ok (g', rest')) :
    (g' = g ∨ g' = { g with state := .RESTART } ∨ g' = { g with state := .MENU }) ∧
    rest'.length + 2 ≤ stdin.length := by
  rw [processPauseState] at h
  rcases hres : (getPlayerInput (stdin.length + 1) 1 3 stdin).2 with c | ⟨sel, rest⟩ | _
  all_goals rw [hres] at h
  all_goals dsimp only at h
  · exact absurd h (by simp)
  · have hcons := getPlayerInput_consumes _ _ _ _ _ _ hres
    split_ifs at h <;>
      (simp only [Res.ok.injEq, Prod.mk.injEq] at h
       obtain ⟨hg, hr⟩ := h
       subst hr
       tauto)
  · exact absurd h (by simp)

/-- `getAImove` leaves the state, the dimension, the move counter and the
turn flag alone, and only ever writes the symbol `'O'` into cells. -/
theorem getAImove_pres :
    ∀ fuel g r k g' k', getAImove fuel g r k = .ok (g', k') →
      g'.state = g.state ∧ g'.dim = g.dim ∧ g'.movesLeft = g.movesLeft ∧
      g'.nextMove = g.nextMove ∧
      (∀ i j, cellAt g'.board i j = cellAt g.board i j ∨ cellAt g'.board i j = 79) := by
  intro fuel
  induction fuel with
  | zero =>
    intro g r k g' k' h
    exact absurd h (by simp [getAImove])
  | succ fuel ih =>
    intro g r k g' k' h
    rw [getAImove] at h
    rcases checkCell_result g.board g.dim (r k % (g.dim * g.dim)) 79 with ⟨hc1, hc2⟩ | ⟨hc1, hc2⟩
    · rw [hc2, if_neg (by simp)] at h
      exact ih g r (k + 1) g' k' h
    · rw [hc2, if_pos rfl] at h
      simp only [Res.ok.injEq, Prod.mk.injEq] at h
      obtain ⟨hg, hk⟩ := h
      subst hg
      exact ⟨rfl, rfl, rfl, rfl, fun i j => cellAt_setCell_cases _ _ _ _ i j⟩

/-- `getPlayerMove` leaves the dimension, the move counter and the turn flag
alone, changes the state only to `RESTART` or `MENU` (through the pause
sub-flow), and only ever writes the symbol `'X'` into cells. -/
theorem getPlayerMove_pres :
    ∀ fuel g stdin g' stdin', getPlayerMove fuel g stdin = .ok (g', stdin') →
      g'.dim = g.dim ∧ g'.movesLeft = g.movesLeft ∧ g'.nextMove = g.nextMove ∧
      (g'.state = g.state ∨ g'.state = GState.RESTART ∨ g'.state = GState.MENU) ∧
      (∀ i j, cellAt g'.board i j = cellAt g.board i j ∨ cellAt g'.board i j = 88) := by
  intro fuel
  induction fuel with
  | zero =>
    intro g stdin g' s' h
    exact absurd h (by simp [getPlayerMove])
  | succ fuel ih =>
    intro g stdin g' s' h
    by_cases hst : g.state = GState.PLAY
    · rw [getPlayerMove, if_pos hst] at h
      rcases hres : (getPlayerInput (stdin.length + 1) 0 9 stdin).2 with c | ⟨sel, rest⟩ | _
      all_goals rw [hres] at h
      all_goals dsimp only at h
      · exact absurd h (by simp)
      · by_cases hsel : sel = 0
        · rw [if_pos hsel] at h
          rcases hpp : processPauseState g rest with c | ⟨g2, rest2⟩ | _
          all_goals rw [hpp] at h
          all_goals dsimp only at h
          · exact absurd h (by simp)
          · have hp := (processPauseState_cases g rest g2 rest2 hpp).1
            have hrec := ih g2 rest2 g' s' h
            have hfields : g2.dim = g.dim ∧ g2.movesLeft = g.movesLeft ∧
                g2.nextMove = g.nextMove ∧ g2.board = g.board ∧
                (g2.state = g.state ∨ g2.state = GState.RESTART ∨
                  g2.state = GState.MENU) := by
              rcases hp with rfl | rfl | rfl <;> simp
            obtain ⟨hd, hm, hn, hb, hs⟩ := hfields
            refine ⟨by rw [hrec.1, hd], by rw [hrec.2.1, hm], by rw [hrec.2.2.1, hn], ?_, ?_⟩
            · rcases hrec.2.2.2.1 with h1 | h1 | h1
              · rw [h1]; exact hs
              · exact Or.inr (Or.inl h1)
              · exact Or.inr (Or.inr h1)
            · intro i j
              have := hrec.2.2.2.2 i j
              rw [hb] at this
              exact this
          · exact absurd h (by simp)
        · rw [if_neg hsel] at h
          rcases checkCell_result g.board g.dim sel 88 with ⟨hc1, hc2⟩ | ⟨hc1, hc2⟩
          · rw [hc2, if_neg (by simp)] at h
            exact ih g rest g' s' h
          · rw [hc2, if_pos rfl] at h
            simp only [Res.ok.injEq, Prod.mk.injEq] at h
            obtain ⟨hg, hs2⟩ := h
            subst hg
            exact ⟨rfl, rfl, rfl, Or.inl rfl, fun i j => cellAt_setCell_cases _ _ _ _ i j⟩
      · exact absurd h (by simp)
    · rw [getPlayerMove, if_neg hst] at h
      simp only [Res.ok.injEq, Prod.mk.injEq] at h
      obtain ⟨hg, hs2⟩ := h
      subst hg
      exact ⟨rfl, rfl, rfl, Or.inl rfl, fun i j => Or.inl rfl⟩

/-- `afterMove` never touches the board, the dimension or the turn flag. -/
theorem afterMove_fields (g : GameSession) :
    (afterMove g).board = g.board ∧ (afterMove g).dim = g.dim ∧
    (afterMove g).nextMove = g.nextMove := by
  simp only [afterMove]
  split_ifs <;> simp

/-- `afterMove` on a session still in `PLAY` with a detected line: win
attribution through the already-flipped `nextMove`, counter untouched. -/
theorem afterMove_win (g : GameSession) (hst : g.state = GState.PLAY)
    (hline : detectedLine g.board g.dim = true) :
    afterMove g = (if g.nextMove = NextMove.AI_MOVE then { g with state := .PLAYER_WIN }
      else { g with state := .AI_WIN }) := by
  rw [afterMove, if_neg (by simp [hst]), if_pos hline]

/-- No write of the AI-move loop ever lands on the bottom-right cell
`(dim-1, dim-1)`: a candidate `c ≥ 1` addresses `((c-1)/dim, (c-1)%dim)` with
`c - 1 < dim² - 1`, and the wrapped candidate `c = 0` addresses the
astronomically large row `(2^64 - 1)/dim`. -/
theorem getAImove_corner :
    ∀ fuel : Nat, ∀ g : GameSession, ∀ r : Nat → Nat, ∀ k : Nat, ∀ g' : GameSession,
      ∀ k' : Nat, 1 ≤ g.dim → g.dim ≤ 7 → getAImove fuel g r k = .ok (g', k') →
      g'.dim = g.dim ∧
      cellAt g'.board (g.dim - 1) (g.dim - 1) = cellAt g.board (g.dim - 1) (g.dim - 1) := by
  intro fuel
  induction fuel with
  | zero =>
    intro g r k g' k' _ _ h
    exact absurd h (by simp [getAImove])
  | succ fuel ih =>
    intro g r k g' k' hd1 hd7 h
    rw [getAImove] at h
    rcases checkCell_result g.board g.dim (r k % (g.dim * g.dim)) 79 with ⟨hc1, hc2⟩ | ⟨hc1, hc2⟩
    · rw [hc2, if_neg (by simp)] at h
      exact ih g r (k + 1) g' k' hd1 hd7 h
    · rw [hc2, if_pos rfl] at h
      simp only [Res.ok.injEq, Prod.mk.injEq] at h
      obtain ⟨hg, -⟩ := h
      subst hg
      refine ⟨rfl, cellAt_setCell_ne _ _ _ _ _ _ (not_and_or.mp ?_)⟩
      rintro ⟨hx, hy⟩
      have hclt : r k % (g.dim * g.dim) < g.dim * g.dim :=
        Nat.mod_lt _ (Nat.mul_pos hd1 hd1)
      have hsq : g.dim * g.dim ≤ 49 := Nat.mul_le_mul hd7 hd7
      by_cases hc0 : r k % (g.dim * g.dim) = 0
      · rw [hc0] at hx
        have h1 : (cellIndex 0 g.dim).1 = (2 ^ 64 - 1) / g.dim := by
          have hm : (0 + (2 ^ 64 - 1)) % 2 ^ 64 = 2 ^ 64 - 1 := by norm_num
          rw [cellIndex]
          simp only [hm]
        have h2 : (2 ^ 64 - 1) / 7 ≤ (2 ^ 64 - 1) / g.dim := Nat.div_le_div_left hd7 hd1
        have h3 : (6 : Nat) < (2 ^ 64 - 1) / 7 := by norm_num
        rw [h1] at hx
        omega
      · set c := r k % (g.dim * g.dim) with hcdef
        have hp : (c + (2 ^ 64 - 1)) % 2 ^ 64 = c - 1 := by omega
        have hci : cellIndex c g.dim = ((c - 1) / g.dim, (c - 1) % g.dim) := by
          rw [cellIndex]
          simp only [hp]
        rw [hci] at hx hy
        simp only at hx hy
        have hdm := Nat.div_add_mod (c - 1) g.dim
        rw [← hx, ← hy] at hdm
        obtain ⟨e, he⟩ : ∃ e, g.dim = e + 1 := ⟨g.dim - 1, by omega⟩
        rw [he] at hdm hclt
        have hE : (e + 1) * (e + 1) = (e + 1) * e + e + 1 := by ring
        have hdm' : (e + 1) * e + e = c - 1 := by simpa using hdm
        omega

/-- `afterMove` on a session still in `PLAY` with no detected line:
decrement the counter, `STALEMATE` when it reaches zero. -/
theorem afterMove_noline (g : GameSession) (hst : g.state = GState.PLAY)
    (hline : detectedLine g.board g.dim = false) :
    afterMove g = (if g.movesLeft - 1 = 0 then
        { g with movesLeft := g.movesLeft - 1, state := .STALEMATE }
      else { g with movesLeft := g.movesLeft - 1 }) := by
  rw [afterMove, if_neg (by simp [hst]), if_neg (by simp [hline])]

/-- One `processTurn` from `PLAY` that neither aborts through the pause menu
nor ends with a detected line decrements `movesLeft` by exactly one and
declares `STALEMATE` exactly when the counter reaches zero. -/
theorem processTurn_step (g : GameSession) (stdin : List Nat) (r : Nat → Nat)
    (k aiFuel : Nat) (g' : GameSession) (s' : List Nat) (k' : Nat)
    (hst : g.state = GState.PLAY)
    (h : processTurn g stdin r k aiFuel = .ok (g', s', k'))
    (hnr : g'.state ≠ GState.RESTART) (hnm : g'.state ≠ GState.MENU)
    (hnl : detectedLine g'.board g'.dim = false) :
    g'.movesLeft = g.movesLeft - 1 ∧ g'.dim = g.dim ∧
    (g'.movesLeft = 0 → g'.state = GState.STALEMATE) ∧
    (g'.movesLeft ≠ 0 → g'.state = GState.PLAY) := by
  rw [processTurn] at h
  cases hn : g.nextMove
  all_goals rw [hn] at h
  all_goals dsimp only at h
  · -- player's move
    rcases hgm : getPlayerMove (stdin.length + 1)
        { g with nextMove := NextMove.AI_MOVE } stdin with c | ⟨g2, s2⟩ | _
    all_goals rw [hgm] at h
    all_goals dsimp only at h
    · exact absurd h (by simp)
    · simp only [Res.ok.injEq, Prod.mk.injEq] at h
      obtain ⟨hg', hs', hk'⟩ := h
      subst hg'
      have hpres := getPlayerMove_pres _ _ _ _ _ hgm
      have hml2 : g2.movesLeft = g.movesLeft := by simpa using hpres.2.1
      have hdim2 : g2.dim = g.dim := by simpa using hpres.1
      have hst2 : g2.state = GState.PLAY ∨ g2.state = GState.RESTART ∨
          g2.state = GState.MENU := by simpa [hst] using hpres.2.2.2.1
      rcases hst2 with hs2 | hs2 | hs2
      · rcases hline : detectedLine g2.board g2.dim with hl | hl
        · rw [afterMove_noline g2 hs2 hline] at hnr hnm hnl ⊢
          split_ifs with hzero
          · exact ⟨by simp [hml2], by simp [hdim2], fun _ => by simp,
              fun hml => absurd hzero (by simpa using hml)⟩
          · exact ⟨by simp [hml2], by simp [hdim2],
              fun hml => absurd (by simpa using hml) hzero, fun _ => by simp [hs2]⟩
        · exfalso
          have hb := afterMove_fields g2
          rw [hb.1, hb.2.1] at hnl
          rw [hnl] at hline
          exact absurd hline (by simp)
      · exfalso
        rw [afterMove, if_pos (by simp [hs2])] at hnr
        exact hnr hs2
      · exfalso
        rw [afterMove, if_pos (by simp [hs2])] at hnm
        exact hnm hs2
    · exact absurd h (by simp)
  · -- AI's move
    rcases hai : getAImove aiFuel { g with nextMove := NextMove.PLAYER_MOVE } r k
      with c | ⟨g2, k2⟩ | _
    all_goals rw [hai] at h
    all_goals dsimp only at h
    · exact absurd h (by simp)
    · simp only [Res.ok.injEq, Prod.mk.injEq] at h
      obtain ⟨hg', hs', hk'⟩ := h
      subst hg'
      have hpres := getAImove_pres _ _ _ _ _ _ hai
      have hml2 : g2.movesLeft = g.movesLeft := by simpa using hpres.2.2.1
      have hdim2 : g2.dim = g.dim := by simpa using hpres.2.1
      have hs2 : g2.state = GState.PLAY := by simpa [hst] using hpres.1
      rcases hline : detectedLine g2.board g2.dim with hl | hl
      · rw [afterMove_noline g2 hs2 hline] at hnr hnm hnl ⊢
        split_ifs with hzero
        · exact ⟨by simp [hml2], by simp [hdim2], fun _ => by simp,
            fun hml => absurd hzero (by simpa using hml)⟩
        · exact ⟨by simp [hml2], by simp [hdim2],
            fun hml => absurd (by simpa using hml) hzero, fun _ => by simp [hs2]⟩
      · exfalso
        have hb := afterMove_fields g2
        rw [hb.1, hb.2.1] at hnl
        rw [hnl] at hline
        exact absurd hline (by simp)
    · exact absurd h (by simp)

/-- Unfolding one turn of `runTurns`. -/
theorem runTurns_succ (n : Nat) (g : GameSession) (stdin : List Nat) (r : Nat → Nat)
    (k aiFuel : Nat) (g1 : GameSession) (s1 : List Nat) (k1 : Nat)
    (h : processTurn g stdin r k aiFuel = .ok (g1, s1, k1)) :
    runTurns (n + 1) g stdin r k aiFuel = runTurns n g1 s1 r k1 aiFuel := by
  rw [runTurns, h]

/-- Running exactly `movesLeft` turns from `PLAY`, with no pause abort and no
detected line anywhere along the run, drives the counter to zero and the
state to `STALEMATE`. -/
theorem runTurns_stalemate :
    ∀ n : Nat, ∀ g : GameSession, ∀ stdin : List Nat, ∀ r : Nat → Nat,
      ∀ k aiFuel : Nat, ∀ gf : GameSession, ∀ sf : List Nat, ∀ kf : Nat,
      g.state = GState.PLAY → g.movesLeft = (n : Int) → 1 ≤ n →
      runTurns n g stdin r k aiFuel = .ok (gf, sf, kf) →
      (∀ i, i ≤ n → turnState (runTurns i g stdin r k aiFuel) ≠ some GState.RESTART ∧
        turnState (runTurns i g stdin r k aiFuel) ≠ some GState.MENU ∧
        turnLine (runTurns i g stdin r k aiFuel) = false) →
      gf.movesLeft = 0 ∧ gf.state = GState.STALEMATE := by
  intro n
  induction n with
  | zero =>
    intro g stdin r k aiFuel gf sf kf _ _ hn _ _
    omega
  | succ n ih =>
    intro g stdin r k aiFuel gf sf kf hst hml hn hrun hH
    rcases hpt : processTurn g stdin r k aiFuel with c | ⟨g1, s1, k1⟩ | _
    · rw [runTurns, hpt] at hrun
      exact absurd hrun (by simp)
    · have hrt1 : runTurns 1 g stdin r k aiFuel = .ok (g1, s1, k1) := by
        have h01 := runTurns_succ 0 g stdin r k aiFuel g1 s1 k1 hpt
        simpa [runTurns] using h01
      have h1 := hH 1 (by omega)
      rw [hrt1] at h1
      simp only [turnState, turnLine] at h1
      obtain ⟨hnr, hnm, hnl⟩ := h1
      have hnr' : g1.state ≠ GState.RESTART := fun he => hnr (by rw [he])
      have hnm' : g1.state ≠ GState.MENU := fun he => hnm (by rw [he])
      have hstep := processTurn_step g stdin r k aiFuel g1 s1 k1 hst hpt hnr' hnm' hnl
      rw [runTurns_succ n g stdin r k aiFuel g1 s1 k1 hpt] at hrun
      by_cases hz : n = 0
      · subst hz
        have hml1 : g1.movesLeft = 0 := by
          rw [hstep.1, hml]
          simp
        have hgf : gf = g1 := by
          rw [runTurns] at hrun
          simp only [Res.ok.injEq, Prod.mk.injEq] at hrun
          exact hrun.1.symm
        subst hgf
        exact ⟨hml1, hstep.2.2.1 hml1⟩
      · have hml1 : g1.movesLeft = (n : Int) := by
          rw [hstep.1, hml]
          push_cast
          ring
        have hst1 : g1.state = GState.PLAY := by
          refine hstep.2.2.2 ?_
          rw [hml1]
          exact_mod_cast Nat.cast_ne_zero.mpr hz
        refine ih g1 s1 r k1 aiFuel gf sf kf hst1 hml1 (by omega) hrun ?_
        intro i hi
        have hHi := hH (i + 1) (by omega)
        rw [runTurns_succ i g stdin r k aiFuel g1 s1 k1 hpt] at hHi
        exact hHi
    · rw [runTurns, hpt] at hrun
      exact absurd hrun (by simp)

/-- Pause selection 2 during a player's turn: the whole `getPlayerMove`
invocation returns at once with state `RESTART`, no cell marked. -/
theorem getPlayerMove_pause_restart (g : GameSession) (stdin rest rest2 : List Nat)
    (fuel : Nat) (hst : g.state = GState.PLAY)
    (h0 : (getPlayerInput (stdin.length + 1) 0 9 stdin).2 = .ok (0, rest))
    (h2 : (getPlayerInput (rest.length + 1) 1 3 rest).2 = .ok (2, rest2)) :
    getPlayerMove (fuel + 2) g stdin = .ok ({ g with state := .RESTART }, rest2) := by
  have hpp : processPauseState g rest = .ok ({ g with state := .RESTART }, rest2) := by
    rw [processPauseState, h2]
    dsimp only
    rw [if_neg (by decide), if_pos rfl]
  rw [getPlayerMove, if_pos hst, h0]
  dsimp only
  rw [if_pos rfl, hpp]
  dsimp only
  rw [getPlayerMove, if_neg (by simp)]

/-- Pause selection 3 during a player's turn: the whole `getPlayerMove`
invocation returns at once with state `MENU`, no cell marked. -/
theorem getPlayerMove_pause_menu (g : GameSession) (stdin rest rest2 : List Nat)
    (fuel : Nat) (hst : g.state = GState.PLAY)
    (h0 : (getPlayerInput (stdin.length + 1) 0 9 stdin).2 = .ok (0, rest))
    (h3 : (getPlayerInput (rest.length + 1) 1 3 rest).2 = .ok (3, rest2)) :
    getPlayerMove (fuel + 2) g stdin = .ok ({ g with state := .MENU }, rest2) := by
  have hpp : processPauseState g rest = .ok ({ g with state := .MENU }, rest2) := by
    rw [processPauseState, h3]
    dsimp only
    rw [if_neg (by decide), if_neg (by decide), if_pos rfl]
  rw [getPlayerMove, if_pos hst, h0]
  dsimp only
  rw [if_pos rfl, hpp]
  dsimp only
  rw [getPlayerMove, if_neg (by simp)]

/-! ## Claim theorems -/

/-- C1: the win detector `detectedLine` returns `true` iff some row, some
column, the main diagonal or the anti-diagonal of the board consists entirely
of one and the same non-empty symbol; in particular it returns `false` on an
all-empty board, so a line of all-empty cells never counts as completed. -/
theorem detectedLine_iff_spec (b : Board) (dim : Nat) (hdim : 2 ≤ dim) :
    (detectedLine b dim = true ↔ hasCompletedLineSpec b dim) ∧
    ((∀ i j, i < dim → j < dim → cellAt b i j = 0) → detectedLine b dim = false) := by
  have hidx : ∀ j : Nat, dim - 2 - j = dim - 1 - (j + 1) := fun j => by omega
  have main : detectedLine b dim = true ↔ hasCompletedLineSpec b dim := by
    rw [detectedLine_eq_true_iff]
    unfold hasCompletedLineSpec lineSpec
    constructor
    · rintro (⟨i, hi, hrow⟩ | ⟨i, hi, hcol⟩ | hdiag | hanti)
      · exact Or.inl ⟨i, hi, (chain_prop _ dim hdim).1 hrow⟩
      · exact Or.inr (Or.inl ⟨i, hi, (chain_prop _ dim hdim).1 hcol⟩)
      · exact Or.inr (Or.inr (Or.inl ((chain_prop _ dim hdim).1 hdiag)))
      · refine Or.inr (Or.inr (Or.inr
          ((chain_prop (fun j => cellAt b j (dim - 1 - j)) dim hdim).1 ?_)))
        intro j hj
        have h1 := hanti j hj
        rw [hidx j] at h1
        exact h1
    · rintro (⟨i, hi, hrow⟩ | ⟨i, hi, hcol⟩ | hdiag | hanti)
      · exact Or.inl ⟨i, hi, (chain_prop _ dim hdim).2 hrow⟩
      · exact Or.inr (Or.inl ⟨i, hi, (chain_prop _ dim hdim).2 hcol⟩)
      · exact Or.inr (Or.inr (Or.inl ((chain_prop _ dim hdim).2 hdiag)))
      · refine Or.inr (Or.inr (Or.inr ?_))
        intro j hj
        have h1 := (chain_prop (fun j => cellAt b j (dim - 1 - j)) dim hdim).2 hanti j hj
        rw [hidx j]
        exact h1
  refine ⟨main, fun hempty => ?_⟩
  cases h : detectedLine b dim with
  | false => rfl
  | true =>
    exfalso
    rcases main.1 h with ⟨i, hi, s, hs, hall⟩ | ⟨i, hi, s, hs, hall⟩ |
      ⟨s, hs, hall⟩ | ⟨s, hs, hall⟩
    · exact hs (by rw [← hall 0 (by omega)]; exact hempty i 0 hi (by omega))
    · exact hs (by rw [← hall 0 (by omega)]; exact hempty 0 i (by omega) hi)
    · exact hs (by rw [← hall 0 (by omega)]; exact hempty 0 0 (by omega) (by omega))
    · exact hs (by rw [← hall 0 (by omega)]; exact hempty 0 (dim - 1 - 0) (by omega) (by omega))

/-- Witness for C1 at a concrete winning board and dimension `3`. -/
theorem detectedLine_iff_spec_witness :
    2 ≤ 3 ∧
    ((detectedLine [[88, 88, 88], [79, 79, 0], [0, 0, 0]] 3 = true ↔
        hasCompletedLineSpec [[88, 88, 88], [79, 79, 0], [0, 0, 0]] 3) ∧
      ((∀ i j, i < 3 → j < 3 → cellAt [[88, 88, 88], [79, 79, 0], [0, 0, 0]] i j = 0) →
        detectedLine [[88, 88, 88], [79, 79, 0], [0, 0, 0]] 3 = false)) :=
  ⟨by decide, detectedLine_iff_spec [[88, 88, 88], [79, 79, 0], [0, 0, 0]] 3 (by decide)⟩

/-- C2 (code bug): with `rand()` returning `0`, the AI candidate index
`rand() % (dim*dim)` is the sentinel `0`, and it IS passed to `checkCell`:
the row it addresses after the int→size_t conversion of `pos - 1` is
`(2^64 - 1) / 3`, outside the 3×3 board, and the AI run reports success while
not one board cell was written. -/
theorem ai_candidate_zero_out_of_board :
    (fun _ : Nat => 0) 0 % (3 * 3) = 0 ∧
    3 ≤ (cellIndex 0 3).1 ∧
    getAImove 1 gEmpty3 (fun _ => 0) 0 = .ok (gEmpty3, 1) := by
  refine ⟨rfl, by decide, by decide⟩

/-- C3 (code bug): end-of-stream at any prompt makes the input reader call
`exitGame(TheGame, 0)`, whose exit code is `EXIT_FAILURE = 1` — not the
success status `0` the claim requires.  (`exitGameCode 1 = 0` is the code of
the graceful-exit path `exitGame(&TheGame, 1)` used by `main`.)  The first
two conjuncts exhibit EOF hit at the first character and EOF hit mid-line. -/
theorem eof_exit_status_failure :
    (getPlayerInput 1 1 3 []).2 = Res.exited (exitGameCode 0) ∧
    (getPlayerInput 2 0 9 [49]).2 = Res.exited (exitGameCode 0) ∧
    exitGameCode 0 = 1 ∧ exitGameCode 1 = 0 := by decide

/-- C9 (code bug): the all-empty board has an empty cell and the AI-move
routine terminates on it with `rand()` returning `0` — but it returns the
session unchanged: no previously empty board cell was marked with 'O'
(the write went outside the board, which in C is an out-of-bounds write). -/
theorem ai_move_zero_candidate_no_mark :
    cellAt gEmpty3.board 1 1 = 0 ∧
    getAImove 1 gEmpty3 (fun _ => 0) 0 = .ok (gEmpty3, 1) ∧
    gEmpty3.board = emptyBoard 3 := by decide

/-- C4: for a well-formed `dim × dim` board (`dim ≤ 7` as in the program) and
a valid 1-based index `pos ∈ [1, dim²]`, `checkCell` addresses exactly the
cell `((pos-1)/dim, (pos-1)%dim)`, which is on the board; on an occupied cell
it reports failure with the board unchanged, and on an empty cell it marks
exactly that cell with the given symbol and reports success. -/
theorem checkCell_mark_spec (b : Board) (dim pos sym : Nat)
    (hB : isBoardOf b dim) (hpos1 : 1 ≤ pos) (hpos2 : pos ≤ dim * dim) (hdim : dim ≤ 7) :
    (pos - 1) / dim < dim ∧ (pos - 1) % dim < dim ∧
    (cellAt b ((pos - 1) / dim) ((pos - 1) % dim) ≠ 0 →
      checkCell b dim pos sym = (b, false)) ∧
    (cellAt b ((pos - 1) / dim) ((pos - 1) % dim) = 0 →
      (checkCell b dim pos sym).2 = true ∧
      cellAt (checkCell b dim pos sym).1 ((pos - 1) / dim) ((pos - 1) % dim) = sym ∧
      ∀ i j, ¬(i = (pos - 1) / dim ∧ j = (pos - 1) % dim) →
        cellAt (checkCell b dim pos sym).1 i j = cellAt b i j) := by
  have hdim1 : 1 ≤ dim := by
    rcases Nat.eq_zero_or_pos dim with h0 | h1
    · subst h0; simp at hpos2; omega
    · exact h1
  have hmod : (pos + (2 ^ 64 - 1)) % 2 ^ 64 = pos - 1 := by
    have : pos ≤ 49 := le_trans hpos2 (by nlinarith)
    omega
  have hxy : cellIndex pos dim = ((pos - 1) / dim, (pos - 1) % dim) := by
    rw [cellIndex]
    simp only [hmod]
  have hx : (pos - 1) / dim < dim := Nat.div_lt_of_lt_mul (by omega)
  have hy : (pos - 1) % dim < dim := Nat.mod_lt _ hdim1
  refine ⟨hx, hy, ?_, ?_⟩
  · intro hocc
    rw [checkCell, hxy, if_pos hocc]
  · intro hemp
    rw [checkCell, hxy, if_neg (by simp [hemp])]
    refine ⟨rfl, ?_, ?_⟩
    · exact cellAt_setCell_eq b _ _ sym (by rw [hB.1]; exact hx)
        (by rw [rowAt_length b dim _ hB hx]; exact hy)
    · intro i j hij
      exact cellAt_setCell_ne b _ _ sym i j (not_and_or.mp hij)

/-- Witness for C4, at a board whose cell 1 is occupied and cell 5 empty. -/
theorem checkCell_mark_spec_witness :
    isBoardOf [[88, 0, 0], [0, 0, 0], [0, 0, 0]] 3 ∧ 1 ≤ 5 ∧ 5 ≤ 3 * 3 ∧ 3 ≤ 7 ∧
    ((checkCell [[88, 0, 0], [0, 0, 0], [0, 0, 0]] 3 5 88).2 = true ∧
      cellAt (checkCell [[88, 0, 0], [0, 0, 0], [0, 0, 0]] 3 5 88).1 1 1 = 88 ∧
      cellAt (checkCell [[88, 0, 0], [0, 0, 0], [0, 0, 0]] 3 5 88).1 0 0 =
        cellAt [[88, 0, 0], [0, 0, 0], [0, 0, 0]] 0 0) ∧
    checkCell [[88, 0, 0], [0, 0, 0], [0, 0, 0]] 3 1 79 =
      ([[88, 0, 0], [0, 0, 0], [0, 0, 0]], false) := by
  have h5 := checkCell_mark_spec [[88, 0, 0], [0, 0, 0], [0, 0, 0]] 3 5 88
    (by decide) (by decide) (by decide) (by decide)
  have h1 := checkCell_mark_spec [[88, 0, 0], [0, 0, 0], [0, 0, 0]] 3 1 79
    (by decide) (by decide) (by decide) (by decide)
  obtain ⟨he1, he2, he3⟩ := h5.2.2.2 (by decide)
  exact ⟨by decide, by decide, by decide, by decide,
    ⟨he1, he2, he3 0 0 (by decide)⟩, h1.2.2.1 (by decide)⟩

/-- C8: the input reader accepts an input line iff it is a single decimal
digit character (`48 ≤ c ≤ 57`) in the requested range (`lo+48 ≤ c ≤ hi+48`)
immediately followed by the newline; on any other first character (or a
non-newline second character) it records the bounds message `(lo, hi)`,
discards the remainder of the line up to and including the newline
(`skipLine`) and retries; and whenever it returns a value, that value lies in
`[lo, hi]`. -/
theorem getPlayerInput_validation :
    (∀ fuel lo hi c d : Nat, ∀ rest : List Nat,
      getPlayerInput (fuel + 1) lo hi (c :: d :: rest) = ([], .ok (c - 48, rest)) ↔
        (48 ≤ c ∧ c ≤ 57 ∧ lo + 48 ≤ c ∧ c ≤ hi + 48 ∧ d = 10)) ∧
    (∀ fuel lo hi c : Nat, ∀ rest : List Nat,
      (isdigit c && isInRange c lo hi) = false →
      getPlayerInput (fuel + 1) lo hi (c :: rest) =
        ((lo, hi) :: (getPlayerInput fuel lo hi (skipLine rest)).1,
          (getPlayerInput fuel lo hi (skipLine rest)).2)) ∧
    (∀ fuel lo hi c d : Nat, ∀ rest : List Nat,
      (isdigit c && isInRange c lo hi) = true → d ≠ 10 →
      getPlayerInput (fuel + 1) lo hi (c :: d :: rest) =
        ((lo, hi) :: (getPlayerInput fuel lo hi (skipLine rest)).1,
          (getPlayerInput fuel lo hi (skipLine rest)).2)) ∧
    (∀ fuel lo hi v : Nat, ∀ stdin rest : List Nat,
      (getPlayerInput fuel lo hi stdin).2 = Res.ok (v, rest) → lo ≤ v ∧ v ≤ hi) := by
  refine ⟨?_, ?_, ?_, ?_⟩
  · intro fuel lo hi c d rest
    constructor
    · intro h
      by_cases hc : (isdigit c && isInRange c lo hi) = true
      · by_cases hd : d = 10
        · subst hd
          simp only [Bool.and_eq_true, isdigit, isInRange, decide_eq_true_eq] at hc
          exact ⟨hc.1.1, hc.1.2, hc.2.1, hc.2.2, rfl⟩
        · rw [getPlayerInput_badline fuel lo hi c d rest hc hd] at h
          exact absurd (congrArg Prod.fst h) (by simp)
      · rw [getPlayerInput_reject fuel lo hi c (d :: rest)
          (by simpa using hc)] at h
        exact absurd (congrArg Prod.fst h) (by simp)
    · rintro ⟨h1, h2, h3, h4, h5⟩
      subst h5
      exact getPlayerInput_accept fuel lo hi c rest
        (by simp only [Bool.and_eq_true, isdigit, isInRange, decide_eq_true_eq]
            exact ⟨⟨h1, h2⟩, h3, h4⟩)
  · intro fuel lo hi c rest hc
    exact getPlayerInput_reject fuel lo hi c rest hc
  · intro fuel lo hi c d rest hc hd
    exact getPlayerInput_badline fuel lo hi c d rest hc hd
  · intro fuel lo hi v stdin rest h
    exact getPlayerInput_inRange fuel lo hi stdin v rest h

/-- Witness for C8: the line `"5\n"` is accepted for the range `[0, 9]` and
the returned value `5` lies in the range. -/
theorem getPlayerInput_validation_witness :
    (getPlayerInput 3 0 9 (53 :: 10 :: [7]) = ([], .ok (53 - 48, [7])) ↔
      (48 ≤ 53 ∧ 53 ≤ 57 ∧ 0 + 48 ≤ 53 ∧ 53 ≤ 9 + 48 ∧ (10 : Nat) = 10)) ∧
    (0 ≤ 5 ∧ 5 ≤ 9) :=
  ⟨getPlayerInput_validation.1 2 0 9 53 10 [7],
    getPlayerInput_validation.2.2.2 3 0 9 5 [53, 10, 7] [7] (by decide)⟩

/-- C5: when a completed line is detected after a move while the state is
still `PLAY`, the turn engine sets the state to `PLAYER_WIN` exactly when the
already-flipped `nextMove` flag equals `AI_MOVE` (the player just moved) and
to `AI_WIN` exactly when it equals `PLAYER_MOVE` (the AI just moved), and it
returns without decrementing `movesLeft`: stated on `processTurn`'s post-move
section `afterMove` and on both `processTurn` arms. -/
theorem processTurn_win_attribution :
    (∀ g : GameSession, g.state = GState.PLAY → detectedLine g.board g.dim = true →
      ((afterMove g).state = GState.PLAYER_WIN ↔ g.nextMove = NextMove.AI_MOVE) ∧
      ((afterMove g).state = GState.AI_WIN ↔ g.nextMove = NextMove.PLAYER_MOVE) ∧
      (afterMove g).movesLeft = g.movesLeft ∧ (afterMove g).board = g.board) ∧
    (∀ g : GameSession, ∀ stdin : List Nat, ∀ r : Nat → Nat, ∀ k aiFuel : Nat,
      ∀ g2 : GameSession, ∀ s2 : List Nat,
      g.nextMove = NextMove.PLAYER_MOVE →
      getPlayerMove (stdin.length + 1) { g with nextMove := NextMove.AI_MOVE } stdin =
        .ok (g2, s2) →
      g2.state = GState.PLAY → detectedLine g2.board g2.dim = true →
      processTurn g stdin r k aiFuel = .ok ({ g2 with state := .PLAYER_WIN }, s2, k) ∧
        g2.movesLeft = g.movesLeft) ∧
    (∀ g : GameSession, ∀ stdin : List Nat, ∀ r : Nat → Nat, ∀ k aiFuel : Nat,
      ∀ g2 : GameSession, ∀ k2 : Nat,
      g.nextMove = NextMove.AI_MOVE →
      getAImove aiFuel { g with nextMove := NextMove.PLAYER_MOVE } r k = .ok (g2, k2) →
      g2.state = GState.PLAY → detectedLine g2.board g2.dim = true →
      processTurn g stdin r k aiFuel = .ok ({ g2 with state := .AI_WIN }, stdin, k2) ∧
        g2.movesLeft = g.movesLeft) := by
  refine ⟨?_, ?_, ?_⟩
  · intro g hst hline
    rw [afterMove_win g hst hline]
    cases hn : g.nextMove <;> simp [hn]
  · intro g stdin r k aiFuel g2 s2 hn hgm hst2 hline2
    have hpres := getPlayerMove_pres _ _ _ _ _ hgm
    have hnm2 : g2.nextMove = NextMove.AI_MOVE := by
      have := hpres.2.2.1
      simpa using this
    have hml2 : g2.movesLeft = g.movesLeft := by
      have := hpres.2.1
      simpa using this
    refine ⟨?_, hml2⟩
    rw [processTurn, hn]
    dsimp only
    rw [hgm]
    dsimp only
    rw [afterMove_win g2 hst2 hline2, if_pos hnm2]
  · intro g stdin r k aiFuel g2 k2 hn hai hst2 hline2
    have hpres := getAImove_pres _ _ _ _ _ _ hai
    have hnm2 : g2.nextMove = NextMove.PLAYER_MOVE := by
      have := hpres.2.2.2.1
      simpa using this
    have hml2 : g2.movesLeft = g.movesLeft := by
      have := hpres.2.2.1
      simpa using this
    refine ⟨?_, hml2⟩
    rw [processTurn, hn]
    dsimp only
    rw [hai]
    dsimp only
    rw [afterMove_win g2 hst2 hline2, if_neg (by simp [hnm2])]

/-- Witness for C5: the player completes the top row from `gA` by marking
cell 3 with the input `"3\n"`, and the state becomes `PLAYER_WIN`. -/
theorem processTurn_win_attribution_witness :
    gA.nextMove = NextMove.PLAYER_MOVE ∧
    getPlayerMove (([51, 10] : List Nat).length + 1)
      { gA with nextMove := NextMove.AI_MOVE } [51, 10] = .ok (gA2, []) ∧
    gA2.state = GState.PLAY ∧ detectedLine gA2.board gA2.dim = true ∧
    (processTurn gA [51, 10] rand5 0 1 = .ok ({ gA2 with state := .PLAYER_WIN }, [], 0) ∧
      gA2.movesLeft = gA.movesLeft) :=
  ⟨rfl, by decide, rfl, by decide,
    processTurn_win_attribution.2.1 gA [51, 10] rand5 0 1 gA2 [] rfl (by decide) rfl (by decide)⟩


/-- C7: starting from a freshly reset game, running the turn engine exactly
N² times while the win detector never fires and no pause abort occurs (so
every turn is one successful mark, decrementing `movesLeft` by exactly one)
drives `movesLeft` to zero and the state to `STALEMATE`. -/
theorem stalemate_after_full_run (g0 : GameSession) (stdin : List Nat) (r : Nat → Nat)
    (k aiFuel : Nat) (gf : GameSession) (sf : List Nat) (kf : Nat)
    (hdim : 1 ≤ g0.dim)
    (hrun : runTurns (g0.dim * g0.dim) (resetGame g0) stdin r k aiFuel = .ok (gf, sf, kf))
    (hH : ∀ i, i ≤ g0.dim * g0.dim →
      turnState (runTurns i (resetGame g0) stdin r k aiFuel) ≠ some GState.RESTART ∧
      turnState (runTurns i (resetGame g0) stdin r k aiFuel) ≠ some GState.MENU ∧
      turnLine (runTurns i (resetGame g0) stdin r k aiFuel) = false) :
    gf.movesLeft = 0 ∧ gf.state = GState.STALEMATE := by
  refine runTurns_stalemate (g0.dim * g0.dim) (resetGame g0) stdin r k aiFuel gf sf kf
    ?_ ?_ ?_ hrun hH
  · simp [resetGame]
  · simp [resetGame]
  · exact Nat.mul_pos hdim hdim

/-- Witness for C7: a full 9-turn drawn game on the 3×3 board — player marks
cells 1, 3, 4, 8, 9, the AI draws 2, 5, 6, 7 — ends in `STALEMATE` with
`movesLeft = 0`. -/
theorem stalemate_after_full_run_witness :
    1 ≤ gW0.dim ∧
    runTurns (gW0.dim * gW0.dim) (resetGame gW0) stdinW randW 0 1 = .ok (gfW, [], 4) ∧
    (∀ i, i ≤ gW0.dim * gW0.dim →
      turnState (runTurns i (resetGame gW0) stdinW randW 0 1) ≠ some GState.RESTART ∧
      turnState (runTurns i (resetGame gW0) stdinW randW 0 1) ≠ some GState.MENU ∧
      turnLine (runTurns i (resetGame gW0) stdinW randW 0 1) = false) ∧
    (gfW.movesLeft = 0 ∧ gfW.state = GState.STALEMATE) :=
  ⟨by decide, by decide, by decide,
    stalemate_after_full_run gW0 stdinW randW 0 1 gfW [] 4 (by decide) (by decide) (by decide)⟩

/-- C10: the AI-move routine never writes the bottom-right cell
`(dim-1, dim-1)` (its candidates `rand() % dim²` exclude `dim²`), so across
every turn of the game that cell stays empty or holds only the player's 'X';
and in the historical version the AI candidate `rand() % 8 + 1` also lies in
`[1, 8]`, excluding cell 9. -/
theorem ai_never_marks_last_cell :
    (∀ fuel : Nat, ∀ g : GameSession, ∀ r : Nat → Nat, ∀ k : Nat, ∀ g' : GameSession,
      ∀ k' : Nat, 1 ≤ g.dim → g.dim ≤ 7 → getAImove fuel g r k = .ok (g', k') →
      g'.dim = g.dim ∧
      cellAt g'.board (g.dim - 1) (g.dim - 1) = cellAt g.board (g.dim - 1) (g.dim - 1)) ∧
    (∀ g : GameSession, ∀ stdin : List Nat, ∀ r : Nat → Nat, ∀ k aiFuel : Nat,
      ∀ g' : GameSession, ∀ s' : List Nat, ∀ k' : Nat, 1 ≤ g.dim → g.dim ≤ 7 →
      processTurn g stdin r k aiFuel = .ok (g', s', k') →
      (cellAt g.board (g.dim - 1) (g.dim - 1) = 0 ∨
        cellAt g.board (g.dim - 1) (g.dim - 1) = 88) →
      g'.dim = g.dim ∧
      (cellAt g'.board (g'.dim - 1) (g'.dim - 1) = 0 ∨
        cellAt g'.board (g'.dim - 1) (g'.dim - 1) = 88)) ∧
    (∀ r : Nat → Nat, ∀ k : Nat, 1 ≤ getAImoveChoiceOld r k ∧ getAImoveChoiceOld r k ≤ 8) := by
  refine ⟨getAImove_corner, ?_, ?_⟩
  · intro g stdin r k aiFuel g' s' k' hd1 hd7 h hinv
    rw [processTurn] at h
    cases hn : g.nextMove
    all_goals rw [hn] at h
    all_goals dsimp only at h
    · rcases hgm : getPlayerMove (stdin.length + 1)
        { g with nextMove := NextMove.AI_MOVE } stdin with c | ⟨g2, s2⟩ | _
      all_goals rw [hgm] at h
      all_goals dsimp only at h
      · exact absurd h (by simp)
      · simp only [Res.ok.injEq, Prod.mk.injEq] at h
        obtain ⟨hg', -, -⟩ := h
        subst hg'
        have hpres := getPlayerMove_pres _ _ _ _ _ hgm
        have hdim2 : g2.dim = g.dim := by simpa using hpres.1
        have hfields := afterMove_fields g2
        have hdim' : (afterMove g2).dim = g.dim := by rw [hfields.2.1, hdim2]
        refine ⟨hdim', ?_⟩
        rw [hfields.1, hdim']
        have hcell := hpres.2.2.2.2 (g.dim - 1) (g.dim - 1)
        dsimp only at hcell
        rcases hcell with hc | hc
        · rw [hc]
          exact hinv
        · exact Or.inr hc
      · exact absurd h (by simp)
    · rcases hai : getAImove aiFuel { g with nextMove := NextMove.PLAYER_MOVE } r k
        with c | ⟨g2, k2⟩ | _
      all_goals rw [hai] at h
      all_goals dsimp only at h
      · exact absurd h (by simp)
      · simp only [Res.ok.injEq, Prod.mk.injEq] at h
        obtain ⟨hg', -, -⟩ := h
        subst hg'
        have hcor := getAImove_corner aiFuel _ r k g2 k2 (by simpa using hd1)
          (by simpa using hd7) hai
        have hdim2 : g2.dim = g.dim := by simpa using hcor.1
        have hfields := afterMove_fields g2
        have hdim' : (afterMove g2).dim = g.dim := by rw [hfields.2.1, hdim2]
        refine ⟨hdim', ?_⟩
        rw [hfields.1, hdim']
        have hc := hcor.2
        dsimp only at hc
        rw [hc]
        exact hinv
      · exact absurd h (by simp)
  · intro r k
    unfold getAImoveChoiceOld
    have := Nat.mod_lt (r k) (show 0 < 8 by norm_num)
    omega

/-- Witness for C10: on the empty board the AI draws 5 and marks the centre;
the bottom-right cell is untouched. -/
theorem ai_never_marks_last_cell_witness :
    1 ≤ gEmpty3.dim ∧ gEmpty3.dim ≤ 7 ∧
    getAImove 1 gEmpty3 rand5 0 = .ok (gO5, 1) ∧
    (gO5.dim = gEmpty3.dim ∧
      cellAt gO5.board (gEmpty3.dim - 1) (gEmpty3.dim - 1) =
        cellAt gEmpty3.board (gEmpty3.dim - 1) (gEmpty3.dim - 1)) :=
  ⟨by decide, by decide, by decide,
    ai_never_marks_last_cell.1 1 gEmpty3 rand5 0 gO5 1 (by decide) (by decide) (by decide)⟩

/-- C6 counterexample: with input `"0\n1\n1\n"` during a player's turn the
selection read is `0` (the pause sub-flow is entered), yet the same
`processTurn` invocation marks cell 1 with 'X' and decrements `movesLeft`
from 9 to 8: after the resume selection `1`, the loop re-prompts inside the
same invocation instead of returning. -/
theorem pause_resume_marks_counterexample :
    (getPlayerInput (([48, 10, 49, 10, 49, 10] : List Nat).length + 1) 0 9
      [48, 10, 49, 10, 49, 10]).2 = .ok (0, [49, 10, 49, 10]) ∧
    processTurn gEmpty3 [48, 10, 49, 10, 49, 10] rand5 0 1 =
      .ok ({ state := .PLAY, nextMove := .AI_MOVE, dim := 3,
             board := [[88, 0, 0], [0, 0, 0], [0, 0, 0]], movesLeft := 8 }, [], 0) ∧
    gEmpty3.movesLeft = 9 ∧
    cellAt [[88, 0, 0], [0, 0, 0], [0, 0, 0]] 0 0 = 88 ∧
    cellAt gEmpty3.board 0 0 = 0 := by decide

/-- C6 (amended): if the selection read during a player's turn is `0` the
engine enters the pause sub-flow; pause selection `2` makes the invocation
return at once with state `RESTART` and pause selection `3` with `MENU` — in
both cases no cell is marked and (at the turn-engine level) `movesLeft` is
not decremented; pause selection `1` (resume) changes nothing of the session
and the engine re-prompts for a new selection within the same invocation. -/
theorem pause_subflow_behavior :
    (∀ g : GameSession, ∀ stdin rest rest2 : List Nat, ∀ fuel : Nat,
      g.state = GState.PLAY →
      (getPlayerInput (stdin.length + 1) 0 9 stdin).2 = .ok (0, rest) →
      (getPlayerInput (rest.length + 1) 1 3 rest).2 = .ok (2, rest2) →
      getPlayerMove (fuel + 2) g stdin = .ok ({ g with state := .RESTART }, rest2)) ∧
    (∀ g : GameSession, ∀ stdin rest rest2 : List Nat, ∀ fuel : Nat,
      g.state = GState.PLAY →
      (getPlayerInput (stdin.length + 1) 0 9 stdin).2 = .ok (0, rest) →
      (getPlayerInput (rest.length + 1) 1 3 rest).2 = .ok (3, rest2) →
      getPlayerMove (fuel + 2) g stdin = .ok ({ g with state := .MENU }, rest2)) ∧
    (∀ g : GameSession, ∀ rest rest2 : List Nat,
      (getPlayerInput (rest.length + 1) 1 3 rest).2 = .ok (1, rest2) →
      processPauseState g rest = .ok (g, rest2)) ∧
    (∀ g : GameSession, ∀ stdin rest rest2 : List Nat, ∀ fuel : Nat,
      g.state = GState.PLAY →
      (getPlayerInput (stdin.length + 1) 0 9 stdin).2 = .ok (0, rest) →
      (getPlayerInput (rest.length + 1) 1 3 rest).2 = .ok (1, rest2) →
      getPlayerMove (fuel + 1) g stdin = getPlayerMove fuel g rest2) ∧
    (∀ g : GameSession, ∀ stdin rest rest2 : List Nat, ∀ r : Nat → Nat, ∀ k aiFuel : Nat,
      g.nextMove = NextMove.PLAYER_MOVE → g.state = GState.PLAY →
      (getPlayerInput (stdin.length + 1) 0 9 stdin).2 = .ok (0, rest) →
      (getPlayerInput (rest.length + 1) 1 3 rest).2 = .ok (2, rest2) →
      processTurn g stdin r k aiFuel =
        .ok ({ g with nextMove := .AI_MOVE, state := .RESTART }, rest2, k)) := by
  refine ⟨getPlayerMove_pause_restart, getPlayerMove_pause_menu, ?_, ?_, ?_⟩
  · intro g rest rest2 h1
    rw [processPauseState, h1]
    dsimp only
    rw [if_pos rfl]
  · intro g stdin rest rest2 fuel hst h0 h1
    have hpp : processPauseState g rest = .ok (g, rest2) := by
      rw [processPauseState, h1]
      dsimp only
      rw [if_pos rfl]
    rw [getPlayerMove, if_pos hst, h0]
    dsimp only
    rw [if_pos rfl, hpp]
  · intro g stdin rest rest2 r k aiFuel hn hst h0 h2
    have hlen := getPlayerInput_consumes _ _ _ _ _ _ h0
    rw [processTurn, hn]
    dsimp only
    have hst' : ({ g with nextMove := NextMove.AI_MOVE }).state = GState.PLAY := by
      simpa using hst
    have heq : stdin.length + 1 = stdin.length - 1 + 2 := by omega
    have hgm := getPlayerMove_pause_restart { g with nextMove := NextMove.AI_MOVE }
      stdin rest rest2 (stdin.length - 1) hst' h0 h2
    rw [heq, hgm]
    dsimp only
    rw [afterMove, if_pos (by simp)]

/-- Witness for C6 (amended): input `"0\n2\n"` pauses and restarts; the
player-move invocation returns with state `RESTART` and the board
untouched. -/
theorem pause_subflow_behavior_witness :
    gEmpty3.state = GState.PLAY ∧
    (getPlayerInput (([48, 10, 50, 10] : List Nat).length + 1) 0 9 [48, 10, 50, 10]).2 =
      .ok (0, [50, 10]) ∧
    (getPlayerInput (([50, 10] : List Nat).length + 1) 1 3 [50, 10]).2 = .ok (2, []) ∧
    getPlayerMove (2 + 2) gEmpty3 [48, 10, 50, 10] =
      .ok ({ gEmpty3 with state := .RESTART }, []) :=
  ⟨rfl, by decide, by decide,
    pause_subflow_behavior.1 gEmpty3 [48, 10, 50, 10] [50, 10] [] 2 rfl
      (by decide) (by decide)⟩
